import Mathlib

set_option maxRecDepth 100000

/-!
Verification of the OfertasB scraper's incremental crawl-and-reconciliation
engine against its design specification.  The definitions below are a shallow
embedding of `scrape_ofertasb.py` (class `OfertasBScraper`), of
`utils/price.py`, and of the paginated loader in
`scrape_uncategorized_fixed2.py`.  HTML documents are modelled structurally at
the granularity the scraper inspects them (tables, rows, cells, anchors,
images); the HTTP fetch of a product detail page is modelled as an oracle
mapping a product id to the optional high-resolution image source found there.
-/

namespace OfertasB

/-! ## MD5 (the `hashlib.md5(...).hexdigest()` calls) -/

namespace MD5

def M32 : Nat := 4294967296

def rotl (x s : Nat) : Nat :=
  (Nat.shiftLeft x s ||| Nat.shiftRight x (32 - s)) % M32

def wadd (a b : Nat) : Nat := (a + b) % M32

def wnot (a : Nat) : Nat := 4294967295 - a % M32

/-- per-round left-rotation amounts -/
def S : List Nat :=
  [7, 12, 17, 22, 7, 12, 17, 22, 7, 12, 17, 22, 7, 12, 17, 22,
   5, 9, 14, 20, 5, 9, 14, 20, 5, 9, 14, 20, 5, 9, 14, 20,
   4, 11, 16, 23, 4, 11, 16, 23, 4, 11, 16, 23, 4, 11, 16, 23,
   6, 10, 15, 21, 6, 10, 15, 21, 6, 10, 15, 21, 6, 10, 15, 21]

/-- sine-derived round constants -/
def K : List Nat :=
  [0xd76aa478, 0xe8c7b756, 0x242070db, 0xc1bdceee,
   0xf57c0faf, 0x4787c62a, 0xa8304613, 0xfd469501,
   0x698098d8, 0x8b44f7af, 0xffff5bb1, 0x895cd7be,
   0x6b901122, 0xfd987193, 0xa679438e, 0x49b40821,
   0xf61e2562, 0xc040b340, 0x265e5a51, 0xe9b6c7aa,
   0xd62f105d, 0x02441453, 0xd8a1e681, 0xe7d3fbc8,
   0x21e1cde6, 0xc33707d6, 0xf4d50d87, 0x455a14ed,
   0xa9e3e905, 0xfcefa3f8, 0x676f02d9, 0x8d2a4c8a,
   0xfffa3942, 0x8771f681, 0x6d9d6122, 0xfde5380c,
   0xa4beea44, 0x4bdecfa9, 0xf6bb4b60, 0xbebfbc70,
   0x289b7ec6, 0xeaa127fa, 0xd4ef3085, 0x04881d05,
   0xd9d4d039, 0xe6db99e5, 0x1fa27cf8, 0xc4ac5665,
   0xf4292244, 0x432aff97, 0xab9423a7, 0xfc93a039,
   0x655b59c3, 0x8f0ccc92, 0xffeff47d, 0x85845dd1,
   0x6fa87e4f, 0xfe2ce6e0, 0xa3014314, 0x4e0811a1,
   0xf7537e82, 0xbd3af235, 0x2ad7d2bb, 0xeb86d391]

/-- little-endian 4-byte serialization of a 32-bit word -/
def toLE4 (x : Nat) : List Nat :=
  [x % 256, x / 256 % 256, x / 65536 % 256, x / 16777216 % 256]

/-- read the j-th little-endian 32-bit word of a 64-byte chunk -/
def wordAt (chunk : List Nat) (j : Nat) : Nat :=
  chunk.getD (4 * j) 0 + 256 * chunk.getD (4 * j + 1) 0 +
    65536 * chunk.getD (4 * j + 2) 0 + 16777216 * chunk.getD (4 * j + 3) 0

/-- one of the 64 MD5 operations on the running state (a, b, c, d) -/
def step (chunk : List Nat) (st : Nat × Nat × Nat × Nat) (i : Nat) :
    Nat × Nat × Nat × Nat :=
  let (a, b, c, d) := st
  let (f, g) :=
    if i < 16 then ((b &&& c) ||| (wnot b &&& d), i)
    else if i < 32 then ((d &&& b) ||| (wnot d &&& c), (5 * i + 1) % 16)
    else if i < 48 then (Nat.xor (Nat.xor b c) d, (3 * i + 5) % 16)
    else (Nat.xor c (b ||| wnot d), (7 * i) % 16)
  let tmp := wadd (wadd (wadd a f) (K.getD i 0)) (wordAt chunk g)
  (d, wadd b (rotl tmp (S.getD i 0)), b, c)

/-- process one 64-byte chunk, updating the four state words -/
def processChunk (st : Nat × Nat × Nat × Nat) (chunk : List Nat) :
    Nat × Nat × Nat × Nat :=
  let (a0, b0, c0, d0) := st
  let (a, b, c, d) := (List.range 64).foldl (step chunk) (a0, b0, c0, d0)
  (wadd a0 a, wadd b0 b, wadd c0 c, wadd d0 d)

def chunksAux : Nat → List Nat → List (List Nat)
  | 0, _ => []
  | _, [] => []
  | n + 1, l => l.take 64 :: chunksAux n (l.drop 64)

/-- split a byte list into 64-byte chunks -/
def chunks (l : List Nat) : List (List Nat) := chunksAux l.length l

/-- MD5 padding: a 0x80 byte, zeros up to 56 mod 64, then the 8-byte
little-endian bit length -/
def padded (msg : List Nat) : List Nat :=
  let lenBits := 8 * msg.length % 18446744073709551616
  let zeros := (119 - msg.length % 64) % 64
  msg ++ [128] ++ List.replicate zeros 0 ++
    [lenBits % 256, lenBits / 256 % 256, lenBits / 65536 % 256,
     lenBits / 16777216 % 256, lenBits / 4294967296 % 256,
     lenBits / 1099511627776 % 256, lenBits / 281474976710656 % 256,
     lenBits / 72057594037927936 % 256]

/-- MD5 digest of a byte list: 16 bytes -/
def md5 (msg : List Nat) : List Nat :=
  let (a, b, c, d) :=
    (chunks (padded msg)).foldl processChunk
      (0x67452301, 0xefcdab89, 0x98badcfe, 0x10325476)
  toLE4 a ++ toLE4 b ++ toLE4 c ++ toLE4 d

/-- the sixteen lowercase hexadecimal digit characters -/
def hexChars : List Char := "0123456789abcdef".data

def hexChar (n : Nat) : Char := hexChars.getD (n % 16) '0'

def byteHex (b : Nat) : List Char := [hexChar (b / 16), hexChar b]

/-- `hexdigest()`: the 32-character lowercase hex rendering of the digest -/
def hexdigest (msg : List Nat) : String :=
  ⟨((md5 msg).map byteHex).flatten⟩

/-- UTF-8 encoding of a single character (`str.encode('utf-8')` per char) -/
def utf8Char (c : Char) : List Nat :=
  let n := c.toNat
  if n < 128 then [n]
  else if n < 2048 then [192 + n / 64, 128 + n % 64]
  else if n < 65536 then [224 + n / 4096, 128 + n / 64 % 64, 128 + n % 64]
  else [240 + n / 262144, 128 + n / 4096 % 64, 128 + n / 64 % 64, 128 + n % 64]

/-- UTF-8 encoding of a string (`str.encode('utf-8')`) -/
def utf8 (s : String) : List Nat := (s.data.map utf8Char).flatten

end MD5

/-! ## Python string helpers -/

/-- the whitespace characters recognised by `str.strip()` and by the regex
class `\s` on the strings this scraper handles -/
def pyWhitespace (c : Char) : Bool :=
  c = ' ' || c = '\t' || c = '\n' || c = '\r' || c = '\x0b' || c = '\x0c'

/-- Python `str.strip()`: drop leading and trailing whitespace -/
def pyStrip (s : String) : String :=
  ⟨((s.data.dropWhile pyWhitespace).reverse.dropWhile pyWhitespace).reverse⟩

/-- decimal rendering of an integer, as the f-string interpolation of an
`int` produces it -/
def intStr (i : Int) : String :=
  match i with
  | Int.ofNat n => ⟨Nat.toDigits 10 n⟩
  | Int.negSucc n => ⟨'-' :: Nat.toDigits 10 (n + 1)⟩

def digitVal (c : Char) : Option Nat :=
  if '0' ≤ c ∧ c ≤ '9' then some (c.toNat - 48) else none

/-- consume a maximal run of decimal digits, returning the accumulated value,
the number of digits consumed and the rest of the input -/
def takeDigits (acc cnt : Nat) : List Char → Nat × Nat × List Char
  | [] => (acc, cnt, [])
  | c :: rest =>
    match digitVal c with
    | some d => takeDigits (10 * acc + d) (cnt + 1) rest
    | none => (acc, cnt, c :: rest)

/-- the exponent suffix of a float literal: an optional sign and a mandatory
digit run, scaling the already-parsed signed mantissa -/
def pyFloatExp (signedNum : Int) (scale : Nat) (r : List Char) : Option ℚ :=
  let (epos, r1) : Bool × List Char :=
    match r with
    | '-' :: r2 => (false, r2)
    | '+' :: r2 => (true, r2)
    | _ => (true, r)
  let (ev, ec, r2) := takeDigits 0 0 r1
  if 0 < ec ∧ r2 = [] then
    some (if epos then mkRat (signedNum * 10 ^ ev) (10 ^ scale)
          else mkRat signedNum (10 ^ scale * 10 ^ ev))
  else none

/-- Python's `float(...)` constructor on finite decimal literals: an optional
sign, a digit run with an optional decimal point, and an optional exponent.
The numeric result is modelled exactly, as a rational. -/
def pyFloat (l : List Char) : Option ℚ :=
  let (neg, l1) : Bool × List Char :=
    match l with
    | '-' :: r => (true, r)
    | '+' :: r => (false, r)
    | _ => (false, l)
  let (ip, ic, l2) := takeDigits 0 0 l1
  let (num, scale, mant, l3) : Nat × Nat × Bool × List Char :=
    match l2 with
    | '.' :: r =>
      let (fp, fc, r2) := takeDigits 0 0 r
      (ip * 10 ^ fc + fp, fc, decide (0 < ic + fc), r2)
    | _ => (ip, 0, decide (0 < ic), l2)
  let signedNum : Int := if neg then -(num : Int) else (num : Int)
  if mant then
    match l3 with
    | [] => some (mkRat signedNum (10 ^ scale))
    | 'e' :: r => pyFloatExp signedNum scale r
    | 'E' :: r => pyFloatExp signedNum scale r
    | _ => none
  else none

/-- Python's `int(...)` constructor on decimal literals: an optional sign and
a digit run, nothing else -/
def pyInt (l : List Char) : Option Int :=
  let (neg, l1) : Bool × List Char :=
    match l with
    | '-' :: r => (true, r)
    | '+' :: r => (false, r)
    | _ => (false, l)
  let (v, c, l2) := takeDigits 0 0 l1
  if 0 < c ∧ l2 = [] then some (if neg then -(v : Int) else (v : Int)) else none

/-! ## `utils/price.py` : `parse_price` -/

/-- the character class the `re.sub` call removes from a price string: the two
colón glyphs, the comma and whitespace -/
def priceStripChar (c : Char) : Bool :=
  c = '₡' || c = '¢' || c = ',' || pyWhitespace c

/-- `parse_price(price_str)`: strips the surrounding whitespace to obtain
`price_raw`, removes currency glyphs, commas and whitespace, and converts the
remainder with `float(...)`; returns `(price_raw, value)` on success and fails
(raises `ValueError`, the spec's `ParseError`) otherwise.  The source's
`startswith('¢')` branch is a no-op and contributes nothing. -/
def parse_price (priceStr : String) : Option (String × ℚ) :=
  let price_raw := pyStrip priceStr
  let cleaned := price_raw.data.filter (fun c => !priceStripChar c)
  match pyFloat cleaned with
  | some v => some (price_raw, v)
  | none => none

/-! ## URL helpers -/

def BASE_URL : String := "https://www.ofertasb.com"

/-- drop everything up to and including the first occurrence of `sep`;
`none` when `sep` does not occur -/
def dropThroughFirst (sep : List Char) : List Char → Option (List Char)
  | [] => none
  | c :: rest =>
    if sep.isPrefixOf (c :: rest) then some ((c :: rest).drop sep.length)
    else dropThroughFirst sep rest

/-- whether `sep` occurs inside `l` -/
def containsSeq (sep l : List Char) : Bool :=
  (dropThroughFirst sep l).isSome

/-- `urllib.parse.urljoin` restricted to the shapes the scraper produces: an
absolute base and a relative or absolute href -/
def urljoin (base rel : String) : String :=
  if rel = "" then base
  else if containsSeq "://".data rel.data then rel
  else if rel.data.head? = some '/' then base ++ rel
  else base ++ "/" ++ rel

def splitTailAux (sep : List Char) : Nat → List Char → List Char
  | 0, l => l
  | n + 1, l =>
    match dropThroughFirst sep l with
    | none => l
    | some r => splitTailAux sep n r

/-- the last component of Python's `s.split(sep)`: the segment after the last
occurrence of `sep`, or the whole string when `sep` does not occur -/
def splitTail (sep : String) (s : String) : String :=
  ⟨splitTailAux sep.data s.data.length s.data⟩

/-! ## HTML model

The scraper inspects listing pages only through BeautifulSoup queries over
`table` elements: attribute reads, first-descendant lookups of `tr`, `td`,
`a` and `img`, the CSS selector for a `td` with a `colspan` attribute of 1,
and text extraction.  Tables are therefore modelled at exactly that
granularity. -/

structure HtmlImg where
  src : Option String
deriving DecidableEq, Repr

structure HtmlAnchor where
  href : Option String
  imgs : List HtmlImg
deriving DecidableEq, Repr

structure HtmlCell where
  colspan : Option String
  anchors : List HtmlAnchor
  imgs : List HtmlImg
  text : String
deriving DecidableEq, Repr

structure HtmlTable where
  width : Option String
  idAttr : Option String
  rows : List (List HtmlCell)
deriving DecidableEq, Repr

/-- Python attribute truthiness: an absent or empty string attribute is falsy -/
def optTruthy : Option String → Option String
  | none => none
  | some s => if s = "" then none else some s

/-- all anchors of a table in document order (`table.find_all('a')`) -/
def tableAnchors (t : HtmlTable) : List HtmlAnchor :=
  (t.rows.flatten.map HtmlCell.anchors).flatten

/-- all images of a table (`table.find_all('img')`): images inside anchors
and images directly inside cells -/
def tableImgs (t : HtmlTable) : List HtmlImg :=
  ((tableAnchors t).map HtmlAnchor.imgs).flatten ++
    (t.rows.flatten.map HtmlCell.imgs).flatten

/-- `table.find('tr').find('td').find('a')`: the first anchor of the first
cell of the first row -/
def firstAnchor (t : HtmlTable) : Option HtmlAnchor :=
  (t.rows.head?.bind List.head?).bind (fun c => c.anchors.head?)

/-- `table.select_one('tr td')` with the colspan-1 selector: the first cell
carrying a `colspan` attribute of 1, in document order -/
def nameCellOf (t : HtmlTable) : Option HtmlCell :=
  (t.rows.flatten.filter (fun c => c.colspan = some "1")).head?

/-- the product-card structural signature used by `scrape_category` and
`fetch_category_pages`: width attribute 200, marker id `customers`, at least
one anchor, at least one image, at least three rows -/
def isProductTable (t : HtmlTable) : Bool :=
  t.width = some "200" && t.idAttr = some "customers" &&
    !(tableAnchors t).isEmpty && !(tableImgs t).isEmpty &&
    decide (3 ≤ t.rows.length)

/-! ## Fingerprints and extracted records -/

/-- the content fingerprint: MD5 over `name ++ colon ++ price_raw ++ colon ++
image`, rendered as a lowercase hex string -/
def contentFingerprint (name priceRaw image : String) : String :=
  MD5.hexdigest (MD5.utf8 (name ++ ":" ++ priceRaw ++ ":" ++ image))

/-- Python's `str(...)` applied to the optional image URL: `None` renders as
the four-character string `None` -/
def strOfImage : Option String → String
  | none => "None"
  | some s => s

structure ProductData where
  external_product_id : Int
  product_url : String
  image_url : Option String
  name : String
  price_raw : String
  price_numeric : ℚ
  source_html_hash : String
  category_id : String
deriving DecidableEq, Repr

/-- the detail-page oracle: for a product id, the `src` of the
high-resolution image found on `productos_full.asp` for it, or `none` when
absent or when the fetch fails (both cases keep the thumbnail) -/
abbrev DetailOracle : Type := Int → Option String

/-- the id parse of `process_product_card`: split the product URL on the
marker `id=` and convert the trailing segment with `int(...)` -/
def parseProductId (product_url : String) : Option Int :=
  pyInt (splitTail "id=" product_url).data

/-- the extraction half of `process_product_card` (main scraper variant,
lines 442 to 511): locate the card's anchor, derive the product URL and id,
take the thumbnail, attempt the detail-page enrichment of the image, read the
name cell and the price cell, parse the price and compute the content
fingerprint.  Any failing step raises and the card yields `none`. -/
def extractProduct (detail : DetailOracle) (category_id : String)
    (t : HtmlTable) : Option ProductData :=
  match firstAnchor t with
  | none => none
  | some a =>
    match optTruthy a.href with
    | none => none
    | some href =>
      let product_url := urljoin BASE_URL href
      match parseProductId product_url with
      | none => none
      | some pid =>
        let thumb : Option String :=
          match a.imgs.head? with
          | none => none
          | some im => (optTruthy im.src).map (urljoin BASE_URL)
        let list_image : Option String :=
          match detail pid with
          | some hi => some (urljoin BASE_URL hi)
          | none => thumb
        match nameCellOf t with
        | none => none
        | some nameCell =>
          let product_name := pyStrip nameCell.text
          if product_name = "" then none
          else
            match t.rows.get? 2 with
            | none => none
            | some priceRow =>
              match priceRow.head? with
              | none => none
              | some priceCell =>
                if '₡' ∈ priceCell.text.data ∨ '¢' ∈ priceCell.text.data then
                  let price_raw := pyStrip priceCell.text
                  match parse_price price_raw with
                  | none => none
                  | some (_, price_numeric) =>
                    some
                      { external_product_id := pid
                        product_url := product_url
                        image_url := list_image
                        name := product_name
                        price_raw := price_raw
                        price_numeric := price_numeric
                        source_html_hash :=
                          contentFingerprint product_name price_raw
                            (strOfImage list_image)
                        category_id := category_id }
                else none

/-- whether `process_product_card` reaches its detail-page fetch for a card:
it does exactly when the anchor, href and id parse succeed -/
def fetchAttempt (t : HtmlTable) : Option Int :=
  match firstAnchor t with
  | none => none
  | some a =>
    match optTruthy a.href with
    | none => none
    | some href => parseProductId (urljoin BASE_URL href)

/-! ## Reconciliation -/

/-- insertion-ordered association list standing for a Python dict -/
def dictGet {α β : Type} [DecidableEq α] (m : List (α × β)) (k : α) :
    Option β :=
  (m.find? (fun p => decide (p.1 = k))).map Prod.snd

/-- Python dict assignment: replace in place when the key exists, append
otherwise -/
def dictInsert {α β : Type} [DecidableEq α] (m : List (α × β)) (k : α)
    (v : β) : List (α × β) :=
  if m.any (fun p => decide (p.1 = k)) then
    m.map (fun p => if p.1 = k then (k, v) else p)
  else m ++ [(k, v)]

def dictValues {α β : Type} (m : List (α × β)) : List β := m.map Prod.snd

/-- the fingerprint cache `self.existing_products` -/
abbrev FingerprintCache : Type := List (Int × String)

inductive Classification
  | NEW
  | CHANGED
  | UNCHANGED
deriving DecidableEq, Repr

/-- the reconciliation state machine of the spec, read off the cache test at
lines 513 to 518: unseen id means new, seen with a different fingerprint
means changed, seen with the identical fingerprint means unchanged -/
def classify (cache : FingerprintCache) (pid : Int) (fp : String) :
    Classification :=
  match dictGet cache pid with
  | none => Classification.NEW
  | some h => if h = fp then Classification.UNCHANGED else Classification.CHANGED

/-- `process_product_card` in full: extraction followed by the cache test;
an unchanged product is dropped (`return None`), anything else is returned
for persistence -/
def process_product_card (cache : FingerprintCache) (detail : DetailOracle)
    (category_id : String) (t : HtmlTable) : Option ProductData :=
  match extractProduct detail category_id t with
  | none => none
  | some pd =>
    match dictGet cache pd.external_product_id with
    | some h => if h = pd.source_html_hash then none else some pd
    | none => some pd

/-! ## The page loop of `scrape_category` (lines 595 to 674) -/

/-- the page-level hash of one card (lines 614 to 635): thumbnail image,
name and raw price straight from the listing table, hashed; a card missing
any of these raises inside the try and contributes nothing -/
def pageHash (t : HtmlTable) : Option String :=
  match firstAnchor t with
  | none => none
  | some a =>
    match a.imgs.head? with
    | none => none
    | some im =>
      match im.src with
      | none => none
      | some src =>
        let list_image := urljoin BASE_URL src
        match nameCellOf t with
        | none => none
        | some nameCell =>
          let product_name := pyStrip nameCell.text
          match t.rows.get? 2 with
          | none => none
          | some priceRow =>
            match priceRow.head? with
            | none => none
            | some priceCell =>
              let price_raw := pyStrip priceCell.text
              some (contentFingerprint product_name price_raw list_image)

/-- the `page_hashes` dict: card hash mapped to its table, in document
order, later cards overriding earlier ones on a hash collision -/
def pageHashDict (tables : List HtmlTable) : List (String × HtmlTable) :=
  tables.foldl
    (fun m t =>
      match pageHash t with
      | some h => dictInsert m h t
      | none => m)
    []

/-- what one listing page contributes: the records handed to
`upsert_product` and the product ids for which a detail-page enrichment
fetch was issued -/
structure PageOutcome where
  upserts : List ProductData
  detailFetches : List Int
deriving DecidableEq, Repr

/-- one iteration of the page loop of `scrape_category`: filter the page's
tables by the card signature, hash every card, drop the hashes already
present among the cached fingerprint values, and run
`process_product_card` on the surviving cards only.  A page whose card
hashes all match the cache is skipped outright. -/
def processPage (cache : FingerprintCache) (detail : DetailOracle)
    (category_id : String) (tables : List HtmlTable) : PageOutcome :=
  let product_tables := tables.filter isProductTable
  if product_tables.isEmpty then ⟨[], []⟩
  else
    let ph := pageHashDict product_tables
    let existing := dictValues cache
    let newH := ph.filter (fun p => decide (p.1 ∉ existing))
    if newH.isEmpty then ⟨[], []⟩
    else
      newH.foldl
        (fun acc p =>
          let fetches := acc.detailFetches ++ (fetchAttempt p.2).toList
          match process_product_card cache detail category_id p.2 with
          | none => ⟨acc.upserts, fetches⟩
          | some pd => ⟨acc.upserts ++ [pd], fetches⟩)
        ⟨[], []⟩

/-- the cache refresh after a category pass (lines 678 to 681): every id in
`added_products` is remapped to the MD5 of its own decimal string -/
def updateCacheAfterPass (cache : FingerprintCache) (added : List Int) :
    FingerprintCache :=
  added.foldl
    (fun m pid => dictInsert m pid (MD5.hexdigest (MD5.utf8 (intStr pid))))
    cache

/-! ## `_load_existing_products` (lines 43 to 62) and the paginated sibling
loader of `scrape_uncategorized_fixed2.py` (lines 149 to 197) -/

/-- a row of the `products` table as the loaders select it -/
structure StoredProduct where
  external_product_id : Int
  source_html_hash : String
  category_id : String
deriving DecidableEq, Repr

/-- `_load_existing_products`: one query, scoped to a category when given,
capped by `limit(100000)`; rows whose stored hash is falsy are dropped by the
dict comprehension -/
def load_existing_products (categoryId : Option String)
    (table : List StoredProduct) : FingerprintCache :=
  let scopedRows :=
    match categoryId with
    | none => table
    | some cid => table.filter (fun p => p.category_id = cid)
  let result := scopedRows.take 100000
  (result.filter (fun p => decide (p.source_html_hash ≠ ""))).map
    (fun p => (p.external_product_id, p.source_html_hash))

/-- `.range(offset, offset + page_size - 1)`: one page of rows -/
def fetchRange (table : List Int) (offset size : Nat) : List Int :=
  (table.drop offset).take size

/-- the pagination loop of the sibling loader: fetch pages of 1000 rows,
stopping on an empty or short page.  The fuel argument dominates the number
of pages of any finite table. -/
def loadAllPagesAux (table : List Int) : Nat → Nat → List Int → List Int
  | 0, _, acc => acc
  | fuel + 1, page, acc =>
    let res := fetchRange table (page * 1000) 1000
    if res.isEmpty then acc
    else if res.length < 1000 then acc ++ res
    else loadAllPagesAux table fuel (page + 1) (acc ++ res)

/-- the sibling `load_existing_products`: exhaustive pagination over the
product ids; the resulting dict keys every id as a string (each mapped to
`True` in the source) -/
def load_existing_products_paginated (table : List Int) : List String :=
  (loadAllPagesAux table (table.length + 1) 0 []).map intStr

/-! ## Category discovery (`get_categories` lines 80 to 102 and
`fetch_categories` lines 104 to 131) -/

structure OptionEl where
  value : Option String
  text : String
deriving DecidableEq, Repr

structure SelectEl where
  nameAttr : Option String
  options : List OptionEl
deriving DecidableEq, Repr

structure CatalogPage where
  selects : List SelectEl
deriving DecidableEq, Repr

structure Category where
  external_id : String
  name : String
  source_url : String
deriving DecidableEq, Repr

/-- `soup.find('select', attrs with name id)`: the first select whose name
attribute is `id` -/
def findCategorySelect (page : CatalogPage) : Option SelectEl :=
  (page.selects.filter (fun s => s.nameAttr = some "id")).head?

/-- one category entry per option carrying a truthy value -/
def mkCategory (o : OptionEl) : Option Category :=
  match optTruthy o.value with
  | none => none
  | some v =>
    some ⟨v, pyStrip o.text, BASE_URL ++ "/productos_cat.asp?id=" ++ v⟩

/-- `get_categories`: raises (the spec's `DiscoveryError`) when the category
select element is absent, and otherwise returns one entry per truthy option
value.  The error propagates to the caller; nothing catches it inside the
scrape loop. -/
def get_categories (page : CatalogPage) : Except String (List Category) :=
  match findCategorySelect page with
  | none => Except.error "Could not find category select element"
  | some sel => Except.ok (sel.options.filterMap mkCategory)

structure Category2 where
  name : String
  external_id : String
  url : String
deriving DecidableEq, Repr

def mkCategory2 (o : OptionEl) : Option Category2 :=
  match optTruthy o.value with
  | none => none
  | some v =>
    some ⟨pyStrip o.text, v, BASE_URL ++ "/productos_cat.asp?id=" ++ v⟩

/-- `fetch_categories`: the variant that looks for any select element and
wraps everything in a catch-all returning the empty list -/
def fetch_categories (page : CatalogPage) : List Category2 :=
  match page.selects.head? with
  | none => []
  | some sel => sel.options.filterMap mkCategory2

/-! ## Pagination traversal (`get_category_pages`, lines 133 to 237) -/

/-- a finite pagination link graph: the URLs that can ever be observed, and
for each URL the set of pagination links `extract_page_links` yields on it
(numeric anchors, the next marker, and the CSS-matched page links, merged);
the links of a known URL stay among the known URLs -/
structure PageGraph where
  nodes : List String
  links : String → List String
  closed : ∀ u ∈ nodes, ∀ v ∈ links u, v ∈ nodes

/-- the worklist traversal of `get_category_pages`: pop a URL, skip it when
already checked, otherwise analyze it, merge its links into the discovered
set and enqueue the ones not yet checked.  `trace` records the URLs actually
analyzed, in order. -/
def crawlAux (g : PageGraph) (frontier : List String)
    (checked : Finset String) (pages : Finset String) (trace : List String)
    (hf : ∀ u ∈ frontier, u ∈ g.nodes) : Finset String × List String :=
  match frontier with
  | [] => (pages, trace)
  | u :: rest =>
    if hu : u ∈ checked then
      crawlAux g rest checked pages trace
        (fun v hv => hf v (List.mem_cons_of_mem u hv))
    else
      crawlAux g
        (rest ++ (g.links u).filter (fun v => decide (v ∉ insert u checked)))
        (insert u checked)
        (pages ∪ (g.links u).toFinset)
        (trace ++ [u])
        (by
          intro v hv
          rcases List.mem_append.mp hv with h | h
          · exact hf v (List.mem_cons_of_mem u h)
          · exact g.closed u (hf u (List.mem_cons_self u rest)) v
              (List.mem_of_mem_filter h))
termination_by ((g.nodes.toFinset \ checked).card, frontier.length)
decreasing_by
  · apply Prod.Lex.right
    exact Nat.lt_succ_self rest.length
  · apply Prod.Lex.left
    have hun : u ∈ g.nodes := hf u (List.mem_cons_self u rest)
    have h1 : g.nodes.toFinset \ insert u checked ⊆ g.nodes.toFinset \ checked :=
      Finset.sdiff_subset_sdiff (Finset.Subset.refl _) (Finset.subset_insert u checked)
    have h2 : u ∈ g.nodes.toFinset \ checked :=
      Finset.mem_sdiff.mpr ⟨List.mem_toFinset.mpr hun, hu⟩
    have h3 : u ∉ g.nodes.toFinset \ insert u checked := by simp
    exact Finset.card_lt_card
      ((Finset.ssubset_iff_of_subset h1).mpr ⟨u, h2, h3⟩)

/-- the union of the pagination links discovered on a list of analyzed
pages -/
def linksUnion (g : PageGraph) : List String → Finset String
  | [] => ∅
  | u :: rest => (g.links u).toFinset ∪ linksUnion g rest

/-- `get_category_pages`: start from the category's base URL, run the
worklist traversal, and return the discovered URLs sorted, together with the
trace of URLs analyzed -/
def get_category_pages (g : PageGraph) (base : String) (hb : base ∈ g.nodes) :
    List String × List String :=
  let r := crawlAux g [base] ∅ {base} []
    (by intro v hv; rwa [List.mem_singleton.mp hv])
  (r.1.sort (· ≤ ·), r.2)

/-! ## Concrete sample inputs used by the closed instantiations -/

/-- a well-formed product card as it appears on a listing page -/
def demoCard : HtmlTable :=
  ⟨some "200", some "customers",
   [[⟨none, [⟨some "productos_full.asp?id=7", [⟨some "upload/img7.jpg"⟩]⟩], [], ""⟩],
    [⟨some "1", [], [], "Demo product"⟩],
    [⟨none, [], [], "₡12,500"⟩]]⟩

/-- a pagination-control table: same tag, width and marker id, but no image
and fewer than three rows -/
def demoPaginationTable : HtmlTable :=
  ⟨some "200", some "customers",
   [[⟨none, [⟨some "productos_cat.asp?id=42&pagina=2", []⟩], [], "2"⟩]]⟩

def demoURL : String := "https://www.ofertasb.com/upload/img7.jpg"

def demoFingerprint : String := contentFingerprint "Demo product" "₡12,500" demoURL

/-- the record `process_product_card` extracts from `demoCard` when the
detail page offers no high-resolution image -/
def demoProduct : ProductData where
  external_product_id := 7
  product_url := "https://www.ofertasb.com/productos_full.asp?id=7"
  image_url := some demoURL
  name := "Demo product"
  price_raw := "₡12,500"
  price_numeric := 12500
  source_html_hash := demoFingerprint
  category_id := "42"

/-- a two-page pagination graph with a cycle and a self-reference -/
def demoGraph : PageGraph where
  nodes := ["p1", "p2"]
  links := fun u => if u = "p1" then ["p2"] else if u = "p2" then ["p1", "p2"] else []
  closed := by decide

def demoSelect : SelectEl :=
  ⟨some "id", [⟨some "193", " Tools "⟩, ⟨some "", "Empty"⟩, ⟨none, "NoValue"⟩]⟩

def demoCatalog : CatalogPage := ⟨[demoSelect]⟩

/-! # Theorems -/

/-! ## Shape of the hex digest -/

theorem md5_length (msg : List Nat) : (MD5.md5 msg).length = 16 := by
  show (MD5.toLE4 _ ++ MD5.toLE4 _ ++ MD5.toLE4 _ ++ MD5.toLE4 _).length = 16
  simp [MD5.toLE4]

theorem hexdigest_length (msg : List Nat) : (MD5.hexdigest msg).length = 32 := by
  have h2 : ∀ l : List Nat, ((l.map MD5.byteHex).flatten).length = 2 * l.length := by
    intro l
    induction l with
    | nil => simp
    | cons b rest ih => simp [MD5.byteHex, ih]; ring
  show ((MD5.md5 msg).map MD5.byteHex).flatten.length = 32
  rw [h2, md5_length]

theorem hexChar_mem (n : Nat) : MD5.hexChar n ∈ MD5.hexChars := by
  have h : ∀ m, m < 16 → MD5.hexChars.getD m '0' ∈ MD5.hexChars := by decide
  exact h (n % 16) (Nat.mod_lt n (by norm_num))

theorem hexdigest_chars (msg : List Nat) :
    ∀ c ∈ (MD5.hexdigest msg).data, c ∈ MD5.hexChars := by
  intro c hc
  have hc' : c ∈ ((MD5.md5 msg).map MD5.byteHex).flatten := hc
  rcases List.mem_flatten.mp hc' with ⟨sub, hsub, hcsub⟩
  rcases List.mem_map.mp hsub with ⟨b, _, rfl⟩
  simp only [MD5.byteHex, List.mem_cons, List.not_mem_nil, or_false] at hcsub
  rcases hcsub with rfl | rfl
  · exact hexChar_mem _
  · exact hexChar_mem _

/-- C3: the content fingerprint is computed from exactly the triple of name,
raw price and image URL; it is deterministic in that triple, it equals the
MD5 hexdigest of the colon-joined triple, and it is always a 32-character
string of lowercase hexadecimal digits. -/
theorem fingerprint_determinism_and_form :
    (∀ (detail : DetailOracle) (cid : String) (t : HtmlTable) (pd : ProductData),
        extractProduct detail cid t = some pd →
        pd.source_html_hash =
          contentFingerprint pd.name pd.price_raw (strOfImage pd.image_url))
    ∧ (∀ n p i, contentFingerprint n p i =
        MD5.hexdigest (MD5.utf8 (n ++ ":" ++ p ++ ":" ++ i)))
    ∧ (∀ n p i n' p' i', n = n' → p = p' → i = i' →
        contentFingerprint n p i = contentFingerprint n' p' i')
    ∧ (∀ n p i, (contentFingerprint n p i).length = 32
        ∧ ∀ c ∈ (contentFingerprint n p i).data, c ∈ MD5.hexChars) := by
  refine ⟨?_, fun n p i => rfl, ?_, ?_⟩
  · intro detail cid t pd h
    simp only [extractProduct] at h
    cases hfa : firstAnchor t with
    | none => rw [hfa] at h; exact Option.noConfusion h
    | some a =>
    simp only [hfa] at h
    cases hhr : optTruthy a.href with
    | none => rw [hhr] at h; exact Option.noConfusion h
    | some href =>
    simp only [hhr] at h
    cases hpid : parseProductId (urljoin BASE_URL href) with
    | none => rw [hpid] at h; exact Option.noConfusion h
    | some pid =>
    simp only [hpid] at h
    cases hnc : nameCellOf t with
    | none => rw [hnc] at h; exact Option.noConfusion h
    | some nameCell =>
    simp only [hnc] at h
    by_cases hne : pyStrip nameCell.text = ""
    · rw [if_pos hne] at h; exact Option.noConfusion h
    · rw [if_neg hne] at h
      cases hpr : t.rows.get? 2 with
      | none => rw [hpr] at h; exact Option.noConfusion h
      | some priceRow =>
      simp only [hpr] at h
      cases hpc : priceRow.head? with
      | none => rw [hpc] at h; exact Option.noConfusion h
      | some priceCell =>
      simp only [hpc] at h
      by_cases hg : '₡' ∈ priceCell.text.data ∨ '¢' ∈ priceCell.text.data
      · rw [if_pos hg] at h
        cases hpp : parse_price (pyStrip priceCell.text) with
        | none => rw [hpp] at h; exact Option.noConfusion h
        | some pr =>
        obtain ⟨praw, pnum⟩ := pr
        simp only [hpp] at h
        cases h
        rfl
      · rw [if_neg hg] at h; exact Option.noConfusion h
  · intro n p i n' p' i' h1 h2 h3
    subst h1; subst h2; subst h3; rfl
  · intro n p i
    exact ⟨hexdigest_length _, hexdigest_chars _⟩

/-- closed instantiation of `fingerprint_determinism_and_form` on the sample
card -/
theorem fingerprint_determinism_and_form_witness :
    extractProduct (fun _ => none) "42" demoCard = some demoProduct
    ∧ demoProduct.source_html_hash =
        contentFingerprint demoProduct.name demoProduct.price_raw
          (strOfImage demoProduct.image_url) :=
  have h : extractProduct (fun _ => none) "42" demoCard = some demoProduct := by
    decide
  ⟨h, fingerprint_determinism_and_form.1 (fun _ => none) "42" demoCard demoProduct h⟩

/-- C4: the three round-trip cases of the spec, evaluated on the embedded
`parse_price` -/
theorem price_normalization_roundtrip :
    parse_price "₡12,500" = some ("₡12,500", 12500)
    ∧ parse_price "¢4000" = some ("¢4000", 4000)
    ∧ parse_price "free" = none := by
  refine ⟨?_, ?_, ?_⟩ <;> decide

/-- C5 counterexample: on an input with surrounding whitespace, the parse
succeeds but the first component is the stripped string, not the input
unchanged -/
theorem price_raw_not_input_unchanged :
    parse_price " ₡5 " = some ("₡5", 5) ∧ "₡5" ≠ " ₡5 " := by
  refine ⟨?_, ?_⟩ <;> decide

/-- C5 amended: for every input on which `parse_price` succeeds, the first
component of the returned pair is the input with its leading and trailing
whitespace stripped (hence the input unchanged whenever the input has no
surrounding whitespace) -/
theorem price_raw_is_stripped_input (s : String) (p : String × ℚ)
    (h : parse_price s = some p) : p.1 = pyStrip s := by
  simp only [parse_price] at h
  cases hf : pyFloat ((pyStrip s).data.filter (fun c => !priceStripChar c)) with
  | none => rw [hf] at h; exact Option.noConfusion h
  | some v =>
    rw [hf] at h
    cases h
    rfl

/-- closed instantiation of `price_raw_is_stripped_input` -/
theorem price_raw_is_stripped_input_witness :
    parse_price "₡7" = some ("₡7", 7) ∧ ("₡7", (7 : ℚ)).1 = pyStrip "₡7" :=
  have h : parse_price "₡7" = some ("₡7", 7) := by decide
  ⟨h, price_raw_is_stripped_input "₡7" ("₡7", 7) h⟩

/-! ## Card signature -/

/-- C8: a table on a listing page is treated as a product card exactly when
it carries the width attribute 200, the marker id customers, at least one
anchor, at least one image and at least three rows; and a page holding one
valid card and one pagination table yields exactly one extracted record
(one upsert, one detail fetch), the pagination table being dropped silently. -/
theorem card_signature_filtering :
    (∀ t : HtmlTable,
        isProductTable t = true ↔
          (t.width = some "200" ∧ t.idAttr = some "customers" ∧
            tableAnchors t ≠ [] ∧ tableImgs t ≠ [] ∧ 3 ≤ t.rows.length))
    ∧ [demoCard, demoPaginationTable].filter isProductTable = [demoCard]
    ∧ processPage [] (fun _ => none) "42" [demoCard, demoPaginationTable] =
        ⟨[demoProduct], [7]⟩ := by
  refine ⟨?_, by decide, by decide⟩
  intro t
  simp [isProductTable, List.isEmpty_iff, and_assoc]

/-! ## Category discovery -/

theorem optTruthy_eq_some (x : Option String) (v : String) :
    optTruthy x = some v ↔ x = some v ∧ v ≠ "" := by
  cases x with
  | none => simp [optTruthy]
  | some s =>
    by_cases h : s = ""
    · subst h
      simp only [optTruthy, if_pos rfl]
      simp
      exact fun hv => hv.symm
    · simp only [optTruthy, if_neg h, Option.some_inj]
      constructor
      · rintro rfl; exact ⟨rfl, h⟩
      · rintro ⟨hv, _⟩; cases hv; rfl

theorem length_filterMap_mkCategory (opts : List OptionEl) :
    (opts.filterMap mkCategory).length =
      (opts.filter (fun o => (optTruthy o.value).isSome)).length := by
  induction opts with
  | nil => rfl
  | cons o rest ih =>
    cases h : optTruthy o.value with
    | none => simp [List.filterMap_cons, List.filter_cons, mkCategory, h, ih]
    | some v => simp [List.filterMap_cons, List.filter_cons, mkCategory, h, ih]

/-- C9: when the catalog page has no category select element,
`get_categories` raises the discovery error, which nothing in the scrape
loop catches; otherwise it returns one category entry per option with a
non-empty value.  The `fetch_categories` variant instead swallows the
failure and returns an empty list. -/
theorem category_discovery_fatal_or_swallowed :
    (∀ page, findCategorySelect page = none →
        get_categories page = Except.error "Could not find category select element")
    ∧ (∀ page sel, findCategorySelect page = some sel →
        ∃ cats, get_categories page = Except.ok cats
          ∧ cats.length = (sel.options.filter (fun o => (optTruthy o.value).isSome)).length
          ∧ ∀ c ∈ cats, ∃ o ∈ sel.options,
              o.value = some c.external_id ∧ c.external_id ≠ ""
              ∧ c.name = pyStrip o.text)
    ∧ (∀ page, page.selects.head? = none → fetch_categories page = []) := by
  refine ⟨?_, ?_, ?_⟩
  · intro page h
    simp [get_categories, h]
  · intro page sel h
    refine ⟨sel.options.filterMap mkCategory, by simp [get_categories, h],
      length_filterMap_mkCategory _, ?_⟩
    intro c hc
    rcases List.mem_filterMap.mp hc with ⟨o, ho, hmk⟩
    cases hv : optTruthy o.value with
    | none =>
      simp only [mkCategory, hv] at hmk
      exact Option.noConfusion hmk
    | some v =>
      simp only [mkCategory, hv] at hmk
      cases hmk
      rcases (optTruthy_eq_some o.value v).mp hv with ⟨hval, hne⟩
      exact ⟨o, ho, hval, hne, rfl⟩
  · intro page h
    simp [fetch_categories, h]

/-- closed instantiation of `category_discovery_fatal_or_swallowed` on an
empty catalog page and on the sample catalog -/
theorem category_discovery_witness :
    (findCategorySelect ⟨[]⟩ = none
      ∧ get_categories ⟨[]⟩ = Except.error "Could not find category select element")
    ∧ (findCategorySelect demoCatalog = some demoSelect
      ∧ ∃ cats, get_categories demoCatalog = Except.ok cats
          ∧ cats.length =
              (demoSelect.options.filter (fun o => (optTruthy o.value).isSome)).length
          ∧ ∀ c ∈ cats, ∃ o ∈ demoSelect.options,
              o.value = some c.external_id ∧ c.external_id ≠ ""
              ∧ c.name = pyStrip o.text)
    ∧ ((⟨[]⟩ : CatalogPage).selects.head? = none ∧ fetch_categories ⟨[]⟩ = []) :=
  ⟨⟨rfl, category_discovery_fatal_or_swallowed.1 ⟨[]⟩ rfl⟩,
   ⟨rfl, category_discovery_fatal_or_swallowed.2.1 demoCatalog demoSelect rfl⟩,
   ⟨rfl, category_discovery_fatal_or_swallowed.2.2 ⟨[]⟩ rfl⟩⟩

/-! ## Dict lemmas -/

theorem dictGet_map_replace {α β : Type} [DecidableEq α]
    (m : List (α × β)) (k : α) (v : β)
    (h : m.any (fun p => decide (p.1 = k)) = true) :
    dictGet (m.map (fun p => if p.1 = k then (k, v) else p)) k = some v := by
  induction m with
  | nil => simp at h
  | cons p rest ih =>
    by_cases hp : p.1 = k
    · simp [dictGet, hp]
    · simp only [List.any_cons, Bool.or_eq_true, decide_eq_true_eq] at h
      rcases h with h | h
      · exact absurd h hp
      · simp only [List.map_cons, if_neg hp]
        simp only [dictGet] at ih ⊢
        rw [List.find?_cons_of_neg _ (by simpa using hp)]
        exact ih h

theorem dictGet_append_single {α β : Type} [DecidableEq α]
    (m : List (α × β)) (k : α) (v : β)
    (h : m.any (fun p => decide (p.1 = k)) = false) :
    dictGet (m ++ [(k, v)]) k = some v := by
  induction m with
  | nil =>
    rw [List.nil_append]
    unfold dictGet
    rw [List.find?_cons_of_pos _ (by simp)]
    rfl
  | cons p rest ih =>
    simp only [List.any_cons, Bool.or_eq_false_iff, decide_eq_false_iff_not] at h
    simp only [List.cons_append]
    simp only [dictGet] at ih ⊢
    rw [List.find?_cons_of_neg _ (by simpa using h.1)]
    exact ih (by simp [h.2])

theorem dictGet_insert_self {α β : Type} [DecidableEq α]
    (m : List (α × β)) (k : α) (v : β) :
    dictGet (dictInsert m k v) k = some v := by
  unfold dictInsert
  by_cases h : m.any (fun p => decide (p.1 = k)) = true
  · rw [if_pos h]
    exact dictGet_map_replace m k v h
  · rw [if_neg h]
    exact dictGet_append_single m k v (Bool.eq_false_iff.mpr h)

theorem dictGet_map_replace_ne {α β : Type} [DecidableEq α]
    (m : List (α × β)) (k k' : α) (v : β) (h : k' ≠ k) :
    dictGet (m.map (fun p => if p.1 = k then (k, v) else p)) k' = dictGet m k' := by
  induction m with
  | nil => rfl
  | cons p rest ih =>
    by_cases hp : p.1 = k
    · simp only [List.map_cons, if_pos hp]
      unfold dictGet at ih ⊢
      rw [List.find?_cons_of_neg _ (by simpa using (Ne.symm h)),
        List.find?_cons_of_neg _ (by simp only [decide_eq_true_eq]; rw [hp]; exact Ne.symm h)]
      exact ih
    · simp only [List.map_cons, if_neg hp]
      unfold dictGet at ih ⊢
      by_cases hk' : p.1 = k'
      · rw [List.find?_cons_of_pos _ (by simpa using hk'),
          List.find?_cons_of_pos _ (by simpa using hk')]
      · rw [List.find?_cons_of_neg _ (by simpa using hk'),
          List.find?_cons_of_neg _ (by simpa using hk')]
        exact ih

theorem dictGet_append_single_ne {α β : Type} [DecidableEq α]
    (m : List (α × β)) (k k' : α) (v : β) (h : k' ≠ k) :
    dictGet (m ++ [(k, v)]) k' = dictGet m k' := by
  induction m with
  | nil =>
    unfold dictGet
    rw [List.nil_append,
      List.find?_cons_of_neg _ (by simpa using (Ne.symm h))]
  | cons p rest ih =>
    rw [List.cons_append]
    unfold dictGet at ih ⊢
    by_cases hk' : p.1 = k'
    · rw [List.find?_cons_of_pos _ (by simpa using hk'),
        List.find?_cons_of_pos _ (by simpa using hk')]
    · rw [List.find?_cons_of_neg _ (by simpa using hk'),
        List.find?_cons_of_neg _ (by simpa using hk')]
      exact ih

theorem dictGet_insert_ne {α β : Type} [DecidableEq α]
    (m : List (α × β)) (k k' : α) (v : β) (h : k' ≠ k) :
    dictGet (dictInsert m k v) k' = dictGet m k' := by
  unfold dictInsert
  split
  · exact dictGet_map_replace_ne m k k' v h
  · exact dictGet_append_single_ne m k k' v h

theorem dictGet_updateCache_not_mem (cache : FingerprintCache)
    (added : List Int) (pid : Int) (h : pid ∉ added) :
    dictGet (updateCacheAfterPass cache added) pid = dictGet cache pid := by
  induction added generalizing cache with
  | nil => rfl
  | cons a rest ih =>
    have hne : pid ≠ a := fun hc => h (hc ▸ List.mem_cons_self a rest)
    have hrest : pid ∉ rest := fun hc => h (List.mem_cons_of_mem a hc)
    show dictGet (updateCacheAfterPass
      (dictInsert cache a (MD5.hexdigest (MD5.utf8 (intStr a)))) rest) pid = _
    rw [ih _ hrest]
    exact dictGet_insert_ne cache a pid _ hne

/-- C10: after a category pass, `scrape_category` remaps every added product
id, in the in-memory cache, to the MD5 of the id's own decimal string — not
to the content fingerprint that was persisted — so any record for that id
whose content fingerprint differs from that id-hash is classified as changed
by a repeated pass within the same run. -/
theorem cache_update_uses_id_hash (cache : FingerprintCache)
    (added : List Int) (pid : Int) (h : pid ∈ added) :
    dictGet (updateCacheAfterPass cache added) pid =
      some (MD5.hexdigest (MD5.utf8 (intStr pid)))
    ∧ ∀ fp, fp ≠ MD5.hexdigest (MD5.utf8 (intStr pid)) →
        classify (updateCacheAfterPass cache added) pid fp =
          Classification.CHANGED := by
  have hget : dictGet (updateCacheAfterPass cache added) pid =
      some (MD5.hexdigest (MD5.utf8 (intStr pid))) := by
    revert h
    induction added generalizing cache with
    | nil => intro h; cases h
    | cons a rest ih =>
      intro h
      by_cases hr : pid ∈ rest
      · exact ih (dictInsert cache a (MD5.hexdigest (MD5.utf8 (intStr a)))) hr
      · have hpa : pid = a := by
          rcases List.mem_cons.mp h with h1 | h1
          · exact h1
          · exact absurd h1 hr
        subst hpa
        show dictGet (updateCacheAfterPass
          (dictInsert cache pid (MD5.hexdigest (MD5.utf8 (intStr pid)))) rest) pid = _
        rw [dictGet_updateCache_not_mem _ rest pid hr]
        exact dictGet_insert_self cache pid _
  refine ⟨hget, ?_⟩
  intro fp hfp
  have hcl : classify (updateCacheAfterPass cache added) pid fp =
      if MD5.hexdigest (MD5.utf8 (intStr pid)) = fp then Classification.UNCHANGED
      else Classification.CHANGED := by
    unfold classify
    rw [hget]
  rw [hcl, if_neg (Ne.symm hfp)]

/-- closed instantiation of `cache_update_uses_id_hash` -/
theorem cache_update_uses_id_hash_witness :
    (1 : Int) ∈ [(1 : Int)]
    ∧ dictGet (updateCacheAfterPass [] [1]) 1 =
        some (MD5.hexdigest (MD5.utf8 (intStr 1)))
    ∧ classify (updateCacheAfterPass [] [1]) 1 "deadbeef" =
        Classification.CHANGED :=
  ⟨by decide, (cache_update_uses_id_hash [] [1] 1 (by decide)).1,
   (cache_update_uses_id_hash [] [1] 1 (by decide)).2 "deadbeef" (by decide)⟩

/-! ## Per-record reconciliation -/

/-- C1: reconciliation inside `process_product_card` is keyed by product
identity: an extracted record whose id is absent from the cache is classified
new and proceeds to persistence, one whose stored fingerprint differs is
classified changed and proceeds, and one whose stored fingerprint is
identical is classified unchanged and dropped with no write.  (The separate
page-level filter compares hashes against the set of all cached values; that
filter is treated in the page-level theorem.) -/
theorem reconciliation_keyed_by_identity
    (cache : FingerprintCache) (detail : DetailOracle) (cid : String)
    (t : HtmlTable) (pd : ProductData)
    (h : extractProduct detail cid t = some pd) :
    (dictGet cache pd.external_product_id = none →
        classify cache pd.external_product_id pd.source_html_hash =
          Classification.NEW
        ∧ process_product_card cache detail cid t = some pd)
    ∧ (∀ fp, dictGet cache pd.external_product_id = some fp →
        fp ≠ pd.source_html_hash →
        classify cache pd.external_product_id pd.source_html_hash =
          Classification.CHANGED
        ∧ process_product_card cache detail cid t = some pd)
    ∧ (dictGet cache pd.external_product_id = some pd.source_html_hash →
        classify cache pd.external_product_id pd.source_html_hash =
          Classification.UNCHANGED
        ∧ process_product_card cache detail cid t = none) := by
  refine ⟨?_, ?_, ?_⟩
  · intro hd
    constructor
    · simp only [classify, hd]
    · simp only [process_product_card, h, hd]
  · intro fp hd hne
    constructor
    · simp only [classify, hd, if_neg hne]
    · simp only [process_product_card, h, hd, if_neg hne]
  · intro hd
    constructor
    · simp [classify, hd]
    · simp [process_product_card, h, hd]

/-- closed instantiation of `reconciliation_keyed_by_identity` in all three
cache situations -/
theorem reconciliation_keyed_by_identity_witness :
    extractProduct (fun _ => none) "42" demoCard = some demoProduct
    ∧ (classify [] demoProduct.external_product_id demoProduct.source_html_hash =
          Classification.NEW
        ∧ process_product_card [] (fun _ => none) "42" demoCard = some demoProduct)
    ∧ (classify [(7, "stale")] demoProduct.external_product_id
          demoProduct.source_html_hash = Classification.CHANGED
        ∧ process_product_card [(7, "stale")] (fun _ => none) "42" demoCard =
            some demoProduct)
    ∧ (classify [(7, demoProduct.source_html_hash)] demoProduct.external_product_id
          demoProduct.source_html_hash = Classification.UNCHANGED
        ∧ process_product_card [(7, demoProduct.source_html_hash)]
            (fun _ => none) "42" demoCard = none) := by
  have h : extractProduct (fun _ => none) "42" demoCard = some demoProduct := by
    decide
  have hd1 : dictGet ([] : FingerprintCache) demoProduct.external_product_id =
      none := rfl
  have hd2 : dictGet [((7 : Int), "stale")] demoProduct.external_product_id =
      some "stale" := rfl
  have hne : "stale" ≠ demoProduct.source_html_hash := by decide
  have hd3 : dictGet [((7 : Int), demoProduct.source_html_hash)]
      demoProduct.external_product_id = some demoProduct.source_html_hash := rfl
  exact ⟨h,
    (reconciliation_keyed_by_identity [] (fun _ => none) "42" demoCard demoProduct h).1 hd1,
    (reconciliation_keyed_by_identity [(7, "stale")] (fun _ => none) "42" demoCard
      demoProduct h).2.1 "stale" hd2 hne,
    (reconciliation_keyed_by_identity [(7, demoProduct.source_html_hash)]
      (fun _ => none) "42" demoCard demoProduct h).2.2 hd3⟩

/-! ## Page-level short-circuit -/

theorem mem_dictInsert {α β : Type} [DecidableEq α] (m : List (α × β))
    (k : α) (v : β) (q : α × β) (hq : q ∈ dictInsert m k v) :
    q ∈ m ∨ q = (k, v) := by
  unfold dictInsert at hq
  split at hq
  · rcases List.mem_map.mp hq with ⟨p, hp, rfl⟩
    by_cases h : p.1 = k
    · right; simp [h]
    · left; simpa [if_neg h] using hp
  · rcases List.mem_append.mp hq with h | h
    · exact Or.inl h
    · right; simpa using h

theorem pageHashDict_sound (tables : List HtmlTable) :
    ∀ q ∈ pageHashDict tables, pageHash q.2 = some q.1 ∧ q.2 ∈ tables := by
  unfold pageHashDict
  suffices hgen : ∀ (l : List HtmlTable) (m : List (String × HtmlTable)),
      (∀ t ∈ l, t ∈ tables) →
      (∀ q ∈ m, pageHash q.2 = some q.1 ∧ q.2 ∈ tables) →
      ∀ q ∈ l.foldl
        (fun m t =>
          match pageHash t with
          | some h => dictInsert m h t
          | none => m) m,
        pageHash q.2 = some q.1 ∧ q.2 ∈ tables by
    exact fun q hq => hgen tables [] (fun t ht => ht) (by simp) q hq
  intro l
  induction l with
  | nil => exact fun m _ hm q hq => hm q hq
  | cons t rest ih =>
    intro m hl hm q hq
    simp only [List.foldl_cons] at hq
    refine ih _ (fun t' ht' => hl t' (List.mem_cons_of_mem t ht')) ?_ q hq
    intro q' hq'
    cases hph : pageHash t with
    | none =>
      simp only [hph] at hq'
      exact hm q' hq'
    | some hsh =>
      simp only [hph] at hq'
      rcases mem_dictInsert _ _ _ _ hq' with hq'' | rfl
      · exact hm q' hq''
      · exact ⟨hph, hl t (List.mem_cons_self t rest)⟩

theorem process_none_of_cached (cache : FingerprintCache)
    (detail : DetailOracle) (cid : String) (t : HtmlTable)
    (h : ∀ pd, extractProduct detail cid t = some pd →
        dictGet cache pd.external_product_id = some pd.source_html_hash) :
    process_product_card cache detail cid t = none := by
  unfold process_product_card
  cases hx : extractProduct detail cid t with
  | none => simp only [hx]
  | some pd => simp [hx, h pd hx]

/-- C2: when every successfully hashed card on a page has its fingerprint
among the cached fingerprint values, the page is skipped outright: no
record is classified new or changed, no detail-page fetch is issued and no
upsert occurs.  And whenever the cache maps each extractable card's id to
exactly the fingerprint that card extracts to — as it does when the cache is
loaded from the results a previous identical run persisted — reconciliation
classifies nothing as new or changed, so the second run performs zero
upserts. -/
theorem page_short_circuit_and_idempotence
    (cache : FingerprintCache) (detail : DetailOracle) (cid : String)
    (tables : List HtmlTable) :
    ((∀ t ∈ tables.filter isProductTable, ∀ fp, pageHash t = some fp →
        fp ∈ dictValues cache) →
      processPage cache detail cid tables = ⟨[], []⟩)
    ∧ ((∀ t ∈ tables, ∀ pd, extractProduct detail cid t = some pd →
        dictGet cache pd.external_product_id = some pd.source_html_hash) →
      (processPage cache detail cid tables).upserts = []) := by
  constructor
  · intro hall
    simp only [processPage]
    split
    · rfl
    · split
      · rfl
      · next h2 =>
        exfalso
        apply h2
        rw [List.isEmpty_iff, List.filter_eq_nil_iff]
        intro p hp
        obtain ⟨hph, hmem⟩ := pageHashDict_sound _ p hp
        have hv := hall p.2 hmem p.1 hph
        simp [hv]
  · intro hall
    have hfold : ∀ (l : List (String × HtmlTable)),
        (∀ q ∈ l, process_product_card cache detail cid q.2 = none) →
        ∀ acc : PageOutcome,
        (l.foldl (fun acc p =>
            let fetches := acc.detailFetches ++ (fetchAttempt p.2).toList
            match process_product_card cache detail cid p.2 with
            | none => ⟨acc.upserts, fetches⟩
            | some pd => ⟨acc.upserts ++ [pd], fetches⟩) acc).upserts =
          acc.upserts := by
      intro l
      induction l with
      | nil => exact fun _ acc => rfl
      | cons q rest ih =>
        intro hl acc
        simp only [List.foldl_cons, hl q (List.mem_cons_self q rest)]
        exact ih (fun q' hq' => hl q' (List.mem_cons_of_mem q hq')) _
    simp only [processPage]
    split
    · rfl
    · split
      · rfl
      · refine Eq.trans (hfold _ ?_ ⟨[], []⟩) rfl
        intro q hq
        have hq' := (List.mem_filter.mp hq).1
        obtain ⟨hph, hmem⟩ := pageHashDict_sound _ q hq'
        exact process_none_of_cached cache detail cid q.2
          (fun pd hpd => hall q.2 (List.mem_of_mem_filter hmem) pd hpd)

/-- closed instantiation of `page_short_circuit_and_idempotence`: the sample
page against a cache holding exactly its fingerprints -/
theorem page_short_circuit_and_idempotence_witness :
    (∀ t ∈ [demoCard].filter isProductTable, ∀ fp, pageHash t = some fp →
        fp ∈ dictValues [((7 : Int), demoFingerprint)])
    ∧ processPage [((7 : Int), demoFingerprint)] (fun _ => none) "42" [demoCard] =
        ⟨[], []⟩
    ∧ (∀ t ∈ [demoCard], ∀ pd, extractProduct (fun _ => none) "42" t = some pd →
        dictGet [((7 : Int), demoFingerprint)] pd.external_product_id =
          some pd.source_html_hash)
    ∧ (processPage [((7 : Int), demoFingerprint)] (fun _ => none) "42"
        [demoCard]).upserts = [] := by
  have hext : extractProduct (fun _ => none) "42" demoCard = some demoProduct := by
    decide
  have hph : pageHash demoCard = some demoFingerprint := rfl
  have hprem1 : ∀ t ∈ [demoCard].filter isProductTable, ∀ fp,
      pageHash t = some fp → fp ∈ dictValues [((7 : Int), demoFingerprint)] := by
    intro t ht fp hfp
    have ht' : t = demoCard := by
      simpa using List.mem_of_mem_filter ht
    subst ht'
    rw [hph] at hfp
    cases hfp
    exact List.mem_singleton.mpr rfl
  have hprem2 : ∀ t ∈ [demoCard], ∀ pd,
      extractProduct (fun _ => none) "42" t = some pd →
      dictGet [((7 : Int), demoFingerprint)] pd.external_product_id =
        some pd.source_html_hash := by
    intro t ht pd hpd
    have ht' : t = demoCard := by simpa using ht
    subst ht'
    rw [hext] at hpd
    cases hpd
    rfl
  exact ⟨hprem1,
    (page_short_circuit_and_idempotence [((7 : Int), demoFingerprint)]
      (fun _ => none) "42" [demoCard]).1 hprem1,
    hprem2,
    (page_short_circuit_and_idempotence [((7 : Int), demoFingerprint)]
      (fun _ => none) "42" [demoCard]).2 hprem2⟩

/-! ## Pagination traversal -/

theorem crawlAux_nil (g : PageGraph) (checked pages : Finset String)
    (trace : List String) (hf : ∀ u ∈ ([] : List String), u ∈ g.nodes) :
    crawlAux g [] checked pages trace hf = (pages, trace) := by
  simp only [crawlAux]

theorem crawlAux_cons (g : PageGraph) (u : String) (rest : List String)
    (checked pages : Finset String) (trace : List String)
    (hf : ∀ v ∈ u :: rest, v ∈ g.nodes) :
    crawlAux g (u :: rest) checked pages trace hf =
      if _hu : u ∈ checked then
        crawlAux g rest checked pages trace
          (fun v hv => hf v (List.mem_cons_of_mem u hv))
      else
        crawlAux g
          (rest ++ (g.links u).filter (fun v => decide (v ∉ insert u checked)))
          (insert u checked) (pages ∪ (g.links u).toFinset) (trace ++ [u])
          (by
            intro v hv
            rcases List.mem_append.mp hv with h | h
            · exact hf v (List.mem_cons_of_mem u h)
            · exact g.closed u (hf u (List.mem_cons_self u rest)) v
                (List.mem_of_mem_filter h)) := by
  conv_lhs => rw [crawlAux.eq_def]

theorem mem_linksUnion (g : PageGraph) (l : List String) (x : String) :
    x ∈ linksUnion g l ↔ ∃ v ∈ l, x ∈ g.links v := by
  induction l with
  | nil => simp [linksUnion]
  | cons u rest ih => simp [linksUnion, ih]

theorem crawlAux_spec (g : PageGraph) (frontier : List String)
    (checked pages : Finset String) (trace : List String)
    (hf : ∀ u ∈ frontier, u ∈ g.nodes) (hnd : trace.Nodup)
    (hck : ∀ x ∈ trace, x ∈ checked) :
    ∃ newT : List String,
      (crawlAux g frontier checked pages trace hf).2 = trace ++ newT
      ∧ (crawlAux g frontier checked pages trace hf).2.Nodup
      ∧ (crawlAux g frontier checked pages trace hf).1 =
          pages ∪ linksUnion g newT := by
  revert hnd hck
  induction frontier, checked, pages, trace, hf using crawlAux.induct g with
  | case1 checked pages trace hf _ =>
    intro hnd hck
    rw [crawlAux_nil]
    exact ⟨[], by simp, hnd, by simp [linksUnion]⟩
  | case2 checked pages trace u rest hf hu _ ih =>
    intro hnd hck
    rw [crawlAux_cons, dif_pos hu]
    exact ih hnd hck
  | case3 checked pages trace u rest hf hu _ ih =>
    intro hnd hck
    rw [crawlAux_cons, dif_neg hu]
    have hunew : u ∉ trace := fun hc => hu (hck u hc)
    have hnd' : (trace ++ [u]).Nodup := by
      simp [List.nodup_append, hnd, hunew]
    have hck' : ∀ x ∈ trace ++ [u], x ∈ insert u checked := by
      intro x hx
      rcases List.mem_append.mp hx with h | h
      · exact Finset.mem_insert_of_mem (hck x h)
      · rcases List.mem_singleton.mp h with rfl
        exact Finset.mem_insert_self x checked
    obtain ⟨newT, h2, hndr, h1⟩ := ih hnd' hck'
    refine ⟨u :: newT, ?_, hndr, ?_⟩
    · rw [h2, List.append_assoc]
      rfl
    · rw [h1, linksUnion, Finset.union_assoc]

/-- C6: for every finite pagination link graph — cycles, duplicate links and
self-references included — `get_category_pages` terminates (it is a total
function of the embedded graph), analyzes each discovered URL at most once,
and returns exactly the set of discovered URLs (the base URL plus every link
found on an analyzed page) as a sorted duplicate-free list. -/
theorem pagination_traversal_total (g : PageGraph) (base : String)
    (hb : base ∈ g.nodes) :
    (get_category_pages g base hb).2.Nodup
    ∧ List.Sorted (· ≤ ·) (get_category_pages g base hb).1
    ∧ (get_category_pages g base hb).1.Nodup
    ∧ (∀ u, u ∈ (get_category_pages g base hb).1 ↔
        u = base ∨ ∃ v ∈ (get_category_pages g base hb).2, u ∈ g.links v) := by
  obtain ⟨newT, h2, hnd, h1⟩ :=
    crawlAux_spec g [base] ∅ {base} []
      (by intro v hv; rwa [List.mem_singleton.mp hv]) List.nodup_nil
      (by intro x hx; cases hx)
  have htr : (get_category_pages g base hb).2 = newT := by
    simp only [get_category_pages]
    rw [h2]
    rfl
  refine ⟨?_, ?_, ?_, ?_⟩
  · rw [htr]
    rw [h2] at hnd
    simpa using hnd
  · exact Finset.sort_sorted _ _
  · exact Finset.sort_nodup _ _
  · intro u
    have hm : u ∈ (get_category_pages g base hb).1 ↔
        u ∈ ({base} ∪ linksUnion g newT : Finset String) := by
      simp only [get_category_pages]
      rw [h1]
      exact Finset.mem_sort _
    rw [hm, htr]
    simp [mem_linksUnion]

/-- closed instantiation of `pagination_traversal_total` on the two-page
cyclic sample graph -/
theorem pagination_traversal_total_witness :
    "p1" ∈ demoGraph.nodes
    ∧ ((get_category_pages demoGraph "p1" (by decide)).2.Nodup
      ∧ List.Sorted (· ≤ ·) (get_category_pages demoGraph "p1" (by decide)).1
      ∧ (get_category_pages demoGraph "p1" (by decide)).1.Nodup
      ∧ (∀ u, u ∈ (get_category_pages demoGraph "p1" (by decide)).1 ↔
          u = "p1" ∨ ∃ v ∈ (get_category_pages demoGraph "p1" (by decide)).2,
            u ∈ demoGraph.links v)) :=
  ⟨by decide, pagination_traversal_total demoGraph "p1" (by decide)⟩

/-! ## Cache loading -/

/-- C7 counterexample: a stored product whose hash is empty is omitted from
the cache built by `_load_existing_products`, so the load is not the
complete mapping of stored product ids to fingerprints -/
theorem cache_load_incomplete :
    (⟨2, "", "c"⟩ : StoredProduct) ∈ [(⟨2, "", "c"⟩ : StoredProduct)]
    ∧ load_existing_products none [⟨2, "", "c"⟩] = [] := by
  constructor
  · simp
  · rfl

theorem loadAllPagesAux_exhausts (table : List Int) :
    ∀ (fuel page : Nat) (acc : List Int),
      table.length ≤ page * 1000 + fuel * 1000 →
      loadAllPagesAux table fuel page acc = acc ++ table.drop (page * 1000) := by
  intro fuel
  induction fuel with
  | zero =>
    intro page acc h
    simp only [loadAllPagesAux]
    rw [List.drop_eq_nil_of_le (by omega), List.append_nil]
  | succ n ih =>
    intro page acc h
    simp only [loadAllPagesAux, fetchRange]
    by_cases h0 : ((table.drop (page * 1000)).take 1000).isEmpty
    · rw [if_pos h0]
      have hnil : table.drop (page * 1000) = [] := by
        rcases List.take_eq_nil_iff.mp (List.isEmpty_iff.mp h0) with h' | h'
        · omega
        · exact h'
      rw [hnil, List.append_nil]
    · rw [if_neg h0]
      by_cases h1 : ((table.drop (page * 1000)).take 1000).length < 1000
      · rw [if_pos h1]
        have hle : (table.drop (page * 1000)).length ≤ 1000 := by
          rw [List.length_take] at h1
          omega
        rw [List.take_of_length_le hle]
      · rw [if_neg h1]
        rw [ih (page + 1) _ (by omega)]
        rw [List.append_assoc]
        congr 1
        have hd : table.drop ((page + 1) * 1000) =
            (table.drop (page * 1000)).drop 1000 := by
          rw [List.drop_drop]
          congr 1
          ring
        rw [hd, List.take_append_drop]

/-- C7 amended: the main scraper's `_load_existing_products` returns exactly
the stored rows within its fixed single-query limit of 100000 whose stored
hash is non-empty (rows beyond the limit or with an empty hash are omitted,
so it is not unconditionally complete); the sibling paginated loader
`load_existing_products` of `scrape_uncategorized_fixed2.py` does exhaust
all pages and returns every stored product id (keyed as a string, each
mapped to True rather than to a fingerprint). -/
theorem cache_load_amended :
    (∀ table : List Int,
        load_existing_products_paginated table = table.map intStr)
    ∧ (∀ (table : List StoredProduct) (p : StoredProduct),
        p ∈ table.take 100000 → p.source_html_hash ≠ "" →
        (p.external_product_id, p.source_html_hash) ∈
          load_existing_products none table)
    ∧ (∀ (table : List StoredProduct) (pr : Int × String),
        pr ∈ load_existing_products none table →
        ∃ p ∈ table, p.external_product_id = pr.1 ∧ p.source_html_hash = pr.2
          ∧ pr.2 ≠ "") := by
  refine ⟨?_, ?_, ?_⟩
  · intro table
    unfold load_existing_products_paginated
    rw [loadAllPagesAux_exhausts table (table.length + 1) 0 [] (by omega)]
    simp
  · intro table p hp hne
    simp only [load_existing_products]
    exact List.mem_map.mpr ⟨p, List.mem_filter.mpr ⟨hp, by simpa using hne⟩, rfl⟩
  · intro table pr hpr
    simp only [load_existing_products] at hpr
    rcases List.mem_map.mp hpr with ⟨p, hp, rfl⟩
    obtain ⟨hp1, hp2⟩ := List.mem_filter.mp hp
    exact ⟨p, List.mem_of_mem_take hp1, rfl, rfl, by simpa using hp2⟩

/-- closed instantiation of `cache_load_amended` -/
theorem cache_load_amended_witness :
    load_existing_products_paginated [1, 2, 3] = [intStr 1, intStr 2, intStr 3]
    ∧ (⟨1, "abc", "c"⟩ : StoredProduct) ∈
        ([⟨1, "abc", "c"⟩] : List StoredProduct).take 100000
    ∧ ((1 : Int), "abc") ∈ load_existing_products none [⟨1, "abc", "c"⟩] :=
  ⟨cache_load_amended.1 [1, 2, 3],
   by decide,
   cache_load_amended.2.1 [⟨1, "abc", "c"⟩] ⟨1, "abc", "c"⟩ (by decide) (by decide)⟩

end OfertasB
